import Mathlib

/-!
Shallow embedding of Krill's event-sourcing engine room (key-value store,
disk aggregate store, signer dispatcher, command-history criteria) and
proofs about the claims of the specification.

Sources embedded:
  * src/commons/eventsourcing/kv.rs          (KeyValueStore)
  * src/commons/eventsourcing/agg_store.rs   (DiskAggregateStore)
  * src/commons/eventsourcing/mod.rs         (Person example aggregate)
  * src/commons/crypto/signing/dispatch/signerprovider.rs (SignerProvider)
  * src/commons/api/history.rs               (CommandHistoryCriteria)

The `DiskKeyStore` primitives (store.rs: store_event, store_command,
store_snapshot, save_info, get_info, get_aggregate) and the command/event
wrapper types (cmd.rs, evt.rs) are not part of the provided sources; the
definitions for them below are modelled from the specification and carry a
doc comment saying so.
-/

set_option maxHeartbeats 1000000
set_option linter.unusedVariables false

namespace Krill

/-- Aggregate handles are opaque identifiers usable as scope segments;
we embed them as strings. -/
abbrev Handle := String

/-! ## Key-value store (kv.rs) -/

/-- A key is a pair of a scope (ordered list of path segments, possibly
empty = global) and a name (spec section 3; the `kvx::Key` type used by
`kv.rs`). -/
structure KvKey where
  scope : List String
  name : String
deriving DecidableEq, Repr

/-- Errors of the external `kvx` crate, as far as `kv.rs` uses them.
`kv.rs` line 127 returns `kvx::Error::Unknown` from `store_new`. -/
inductive KvxError where
  | unknown
  | other (msg : String)
deriving DecidableEq, Repr

/-- `KeyValueError` from kv.rs lines 259-267. -/
inductive KeyValueError where
  | unknownScheme (msg : String)
  | ioError (msg : String)
  | jsonError (msg : String)
  | unknownKey (key : KvKey)
  | duplicateKey (key : KvKey)
  | kvError (e : KvxError)
  | other (msg : String)
deriving DecidableEq, Repr

/-- One namespace of the key-value store: a finite map from keys to opaque
serialized values, embedded as a function. -/
abbrev KvMap := KvKey → Option String

/-- `KeyValueStore::store_new` (kv.rs lines 122-130): inside a transaction
on the key's scope, get the key; if absent store the value, otherwise fail
with `kvx::Error::Unknown`, which the `?` operator wraps into
`KeyValueError::KVError`.  The per-scope transaction gives serialisable
semantics, so the sequential function below is its observable behaviour. -/
def storeNewFn (s : KvMap) (k : KvKey) (v : String) : KvMap × Except KeyValueError Unit :=
  match s k with
  | none => (fun k' => if k' = k then some v else s k', Except.ok ())
  | some _ => (s, Except.error (KeyValueError.kvError KvxError.unknown))

/-! ### Namespace migration (kv.rs lines 60-93) -/

/-- The whole storage backend: a map from namespace to namespace content. -/
abbrev NsStore := String → KvMap

/-- `prefixed_namespace` (kv.rs lines 60-64): `format!("{}_{}", prefix, ns)`. -/
def prefixedNamespace (pre : String) (ns : String) : String :=
  pre ++ "_" ++ ns

/-- `KeyValueStore::wipe` (kv.rs lines 200-202) applied to the namespace a
store instance is bound to: clears every key of that namespace. -/
def wipeNs (g : NsStore) (ns : String) : NsStore :=
  fun n k => if n = ns then none else g n k

/-- `kvx::KeyValueStore::migrate_namespace`: renames the namespace a store
is bound to (`from`) to the target namespace `to`.  Modelled from the spec:
"`migrate_to_archive` renames the current namespace to `archive_<ns>`"
(the kvx crate is external to the repository). -/
def migrateNamespace (g : NsStore) (src : String) (dst : String) : NsStore :=
  fun n k => if n = dst then g src k else if n = src then none else g n k

/-- `KeyValueStore::migrate_to_archive` (kv.rs lines 66-76), translated
line by line.  Note that the source creates the store that is wiped with
`KeyValueStore::create(storage_uri, namespace)` - the *current* namespace -
even though the comment says "Wipe any existing archive": the wipe hits the
store being archived, not the prior archive. -/
def migrateToArchive (g : NsStore) (ns : String) : NsStore × Except KeyValueError Unit :=
  let archiveNs := prefixedNamespace "archive" ns
  -- let archive_store = KeyValueStore::create(storage_uri, namespace)?;
  -- archive_store.wipe()?;
  let g1 := wipeNs g ns
  -- self.inner.migrate_namespace(archive_ns)
  (migrateNamespace g1 ns archiveNs, Except.ok ())

/-! ## Signer dispatch (signerprovider.rs) -/

/-- `rpki::crypto::signer::SigningAlgorithm` (external crate): the signing
algorithms distinguished by the gate in signerprovider.rs lines 237-240. -/
inductive SigningAlgorithm where
  | rsaSha256
  | ecdsaP256Sha256
deriving DecidableEq, Repr

/-- Signer errors, as far as the dispatcher produces them. -/
inductive SignerError where
  | unsupportedSigningAlg (alg : SigningAlgorithm)
  | keyNotFound
  | other (msg : String)
deriving DecidableEq, Repr

/-- `SignerFlags` (signerprovider.rs lines 20-23). -/
structure SignerFlags where
  is_default_signer : Bool
  is_one_off_signer : Bool
deriving DecidableEq, Repr

/-- Abstract behaviour of one wrapped backend signer (OpenSSL, KMIP,
PKCS#11 or mock; their implementations are out of scope).  The provider
theorems quantify over this behaviour, which is how "the backend is not
invoked" is expressed: the result is the same whatever the backend does. -/
structure SignerBackend where
  signFn : String → SigningAlgorithm → String → Except SignerError String
  signOneOffFn : SigningAlgorithm → String → Except SignerError (String × String)

/-- `SignerProvider` (signerprovider.rs lines 60-71): tagged variant over
the backends, each bundling a `SignerFlags`. -/
inductive SignerProvider where
  | openSsl (flags : SignerFlags) (signer : SignerBackend)
  | kmip (flags : SignerFlags) (signer : SignerBackend)
  | pkcs11 (flags : SignerFlags) (signer : SignerBackend)
  | mock (flags : SignerFlags) (signer : SignerBackend)

/-- The backend wrapped by a provider variant. -/
def SignerProvider.backend : SignerProvider → SignerBackend
  | .openSsl _ s => s
  | .kmip _ s => s
  | .pkcs11 _ s => s
  | .mock _ s => s

/-- `SignerProvider::sign` (signerprovider.rs lines 231-251): if the
signing algorithm is not `RsaSha256`, fail `UnsupportedSigningAlg` before
the `match self` dispatch; otherwise dispatch to the wrapped backend. -/
def SignerProvider.sign (p : SignerProvider) (key : String) (alg : SigningAlgorithm)
    (data : String) : Except SignerError String :=
  if alg ≠ SigningAlgorithm.rsaSha256 then
    Except.error (SignerError.unsupportedSigningAlg alg)
  else
    match p with
    | .openSsl _ signer => signer.signFn key alg data
    | .kmip _ signer => signer.signFn key alg data
    | .pkcs11 _ signer => signer.signFn key alg data
    | .mock _ signer => signer.signFn key alg data

/-- `SignerProvider::sign_one_off` (signerprovider.rs lines 253-272):
same algorithm gate, then dispatch. -/
def SignerProvider.signOneOff (p : SignerProvider) (alg : SigningAlgorithm)
    (data : String) : Except SignerError (String × String) :=
  if alg ≠ SigningAlgorithm.rsaSha256 then
    Except.error (SignerError.unsupportedSigningAlg alg)
  else
    match p with
    | .openSsl _ signer => signer.signOneOffFn alg data
    | .kmip _ signer => signer.signOneOffFn alg data
    | .pkcs11 _ signer => signer.signOneOffFn alg data
    | .mock _ signer => signer.signOneOffFn alg data

/-! ## Command history criteria (history.rs) -/

/-- `CommandSummary` (history.rs lines 156-160); `args` is an ordered map
embedded as an association list. -/
structure CommandSummary where
  msg : String
  label : String
  args : List (String × String)
deriving DecidableEq, Repr

/-- `CommandHistoryResult` (history.rs lines 122-126). -/
inductive CommandHistoryResult where
  | init
  | ok
  | error (msg : String)
deriving DecidableEq, Repr

/-- `CommandHistoryCriteria` (history.rs lines 244-259). -/
structure CommandHistoryCriteria where
  before : Option Int := none
  after : Option Int := none
  after_version : Option Nat := none
  label_includes : Option (List String) := none
  label_excludes : Option (List String) := none
  offset : Nat := 0
  rows_limit : Option Nat := some 100
deriving DecidableEq, Repr

/-- `CommandHistoryRecord` (history.rs lines 104-111). -/
structure CommandHistoryRecord where
  actor : String
  timestamp : Int
  handle : Handle
  version : Nat
  summary : CommandSummary
  effect : CommandHistoryResult
deriving DecidableEq, Repr

/-- `CommandHistoryCriteria::matches_timestamp_secs` (history.rs 296-308):
return false when `before` is set and the stamp exceeds it, or when `after`
is set and the stamp is below it. -/
def CommandHistoryCriteria.matchesTimestampSecs (c : CommandHistoryCriteria)
    (stamp : Int) : Bool :=
  (match c.before with | some before => decide (stamp ≤ before) | none => true)
    && (match c.after with | some after => decide (after ≤ stamp) | none => true)

/-- `CommandHistoryCriteria::matches_version` (history.rs 310-315). -/
def CommandHistoryCriteria.matchesVersion (c : CommandHistoryCriteria)
    (version : Nat) : Bool :=
  match c.after_version with
  | none => true
  | some seqCrit => version > seqCrit

/-- `CommandHistoryCriteria::matches_label` (history.rs 317-331): if
`label_includes` is set the label must be a member; if `label_excludes` is
set it must not be. -/
def CommandHistoryCriteria.matchesLabel (c : CommandHistoryCriteria)
    (label : String) : Bool :=
  (match c.label_includes with
   | some includes => decide (label ∈ includes)
   | none => true)
    && (match c.label_excludes with
        | some excludes => decide (label ∉ excludes)
        | none => true)

/-- `CommandHistoryRecord::matches` (history.rs 113-119). -/
def CommandHistoryRecord.matches (r : CommandHistoryRecord)
    (crit : CommandHistoryCriteria) : Bool :=
  crit.matchesTimestampSecs r.timestamp && crit.matchesVersion r.version
    && crit.matchesLabel r.summary.label

/-! ## Aggregate store (agg_store.rs)

The orchestration logic is translated from `DiskAggregateStore` in
agg_store.rs.  The `DiskKeyStore` persistence primitives it calls live in
store.rs, which is not among the provided sources; those primitives are
modelled from the specification (sections 3, 4.3, 4.4 and 6) below. -/

/-- `SNAPSHOT_FREQ` (agg_store.rs line 15). -/
def SNAPSHOT_FREQ : Nat := 5

/-- `StoredValueInfo` (declared in store.rs, described in spec section 3):
`{last_event, last_command, snapshot_version, last_update}`.  Modelled from
the spec: the default record (used by `add`) has all counters zero
(section 8 scenario E1 requires `last_command`/`last_event` to reach 21
after 21 commands starting from the default). -/
structure StoredValueInfo where
  last_event : Nat := 0
  last_command : Nat := 0
  snapshot_version : Nat := 0
  last_update : Nat := 0
deriving DecidableEq, Repr

instance : Inhabited StoredValueInfo := ⟨{}⟩

/-- The effect of a stored command (spec section 3): `Init`,
`Success{event_versions}` or `Error{msg}`. -/
inductive StoredEffectRec where
  | init
  | success (eventVersions : List Nat)
  | error (msg : String)
deriving DecidableEq, Repr

/-- A stored command record.  Modelled from the spec (section 3): the
command record carries the aggregate handle, the aggregate version before
the command, the per-aggregate sequence number and the effect (the actor,
timestamp and typed details are opaque to every claim and omitted). -/
structure StoredCommandRec where
  handle : Handle
  version : Nat
  sequence : Nat
  effect : StoredEffectRec
deriving DecidableEq, Repr

/-- `AggregateStoreError` (agg_store.rs lines 62-100). -/
inductive AggregateStoreError where
  | keyStoreError (msg : String)
  | ioError (msg : String)
  | unknownAggregate (handle : Handle)
  | initError
  | wrongEventForAggregate
  | concurrentModification (handle : Handle)
  | unknownCommand (handle : Handle) (seq : Nat)
  | commandOffsetTooLarge (offset : Nat) (total : Nat)
  | warmupFailed (handle : Handle) (msg : String)
  | couldNotRecover (handle : Handle)
deriving DecidableEq, Repr

/-- `A::Error` with its `From<AggregateStoreError>` requirement
(agg_store.rs line 21): either a wrapped store error or the aggregate's
own domain error. -/
inductive AggErr (DErr : Type) where
  | store (e : AggregateStoreError)
  | domain (e : DErr)
deriving DecidableEq, Repr

/-- The `Aggregate` capability (trait in agg.rs, contract in spec section
4.2) together with the accessors of the `Command`, `Event` and `InitEvent`
traits (cmd.rs / evt.rs): a bundle of the functions the store calls. -/
structure AggregateOps (A E C IE DErr : Type) where
  init : IE → Except DErr A
  ievHandle : IE → Handle
  ievVersion : IE → Nat
  version : A → Nat
  apply : A → E → A
  processCommand : A → C → Except DErr (List E)
  evVersion : E → Nat
  evHandle : E → Handle
  cmdHandle : C → Handle
  cmdVersion : C → Option Nat
  errMsg : DErr → String

/-- The laws the `Aggregate` contract imposes on a conforming aggregate
(spec sections 3 and 4.2): `init` constructs at version 1 and `apply` must
increment the version by exactly one. -/
structure AggLaws {A E C IE DErr : Type} (ops : AggregateOps A E C IE DErr) : Prop where
  init_version : ∀ ie a, ops.init ie = Except.ok a → ops.version a = 1
  apply_version : ∀ a e, ops.version (ops.apply a e) = ops.version a + 1

/-- The state of one `DiskAggregateStore` (persistent key-value content
plus the in-memory cache).  Event records are stored per aggregate scope,
named by version (spec section 6); the slot holds either the init event
(written by `add`) or a delta event.  `snapLog` is a ghost log recording
every snapshot write `(handle, version)`, newest first; it changes nothing
observable and only makes snapshot scheduling provable. -/
structure StoreState (A E IE : Type) where
  events : Handle → Nat → Option (Sum IE E)
  commands : Handle → Nat → Option StoredCommandRec
  snapshot : Handle → Option A
  backupSnapshot : Handle → Option A
  infos : Handle → Option StoredValueInfo
  cache : Handle → Option A
  snapLog : List (Handle × Nat)

/-- The empty store. -/
def StoreState.empty {A E IE : Type} : StoreState A E IE :=
  { events := fun _ _ => none
    commands := fun _ _ => none
    snapshot := fun _ => none
    backupSnapshot := fun _ => none
    infos := fun _ => none
    cache := fun _ => none
    snapLog := [] }

section AggStore

variable {A E C IE DErr : Type}

/-- Update a doubly-indexed map at one point. -/
def upd2 {α : Type} (f : Handle → Nat → Option α) (h : Handle) (n : Nat)
    (v : Option α) : Handle → Nat → Option α :=
  fun h' n' => if h' = h ∧ n' = n then v else f h' n'

/-- Update a singly-indexed map at one point. -/
def upd1 {α : Type} (f : Handle → Option α) (h : Handle) (v : Option α) :
    Handle → Option α :=
  fun h' => if h' = h then v else f h'

/-- `DiskKeyStore::store_event` for a delta event.  Modelled from the
spec (section 6): the event record is stored under the scope of its own
handle with a name derived from its version. -/
def storeEvent (ops : AggregateOps A E C IE DErr) (s : StoreState A E IE) (e : E) :
    StoreState A E IE :=
  { s with events := upd2 s.events (ops.evHandle e) (ops.evVersion e) (some (Sum.inr e)) }

/-- `DiskKeyStore::store_event` applied to an init event (agg_store.rs
line 299 stores the init event through the same primitive).  Modelled from
the spec (section 3: exactly one init event per aggregate, at version 0). -/
def storeInitEvent (ops : AggregateOps A E C IE DErr) (s : StoreState A E IE)
    (ie : IE) : StoreState A E IE :=
  { s with events := upd2 s.events (ops.ievHandle ie) (ops.ievVersion ie) (some (Sum.inl ie)) }

/-- `DiskKeyStore::store_command`.  Modelled from the spec (section 6):
the record is stored under the scope of its handle, named by sequence. -/
def storeCommand (s : StoreState A E IE) (sc : StoredCommandRec) : StoreState A E IE :=
  { s with commands := upd2 s.commands sc.handle sc.sequence (some sc) }

/-- `DiskKeyStore::store_snapshot`.  Modelled from the spec (section 4.4
(d)): persist the serialized aggregate as the latest snapshot, rotating
the previous snapshot to the backup snapshot.  Also appends to the ghost
snapshot log. -/
def storeSnapshot (ops : AggregateOps A E C IE DErr) (s : StoreState A E IE)
    (h : Handle) (a : A) : StoreState A E IE :=
  { s with
    backupSnapshot := upd1 s.backupSnapshot h (s.snapshot h)
    snapshot := upd1 s.snapshot h (some a)
    snapLog := (h, ops.version a) :: s.snapLog }

/-- `DiskKeyStore::save_info`.  Modelled from the spec (section 6): the
info record is stored under the aggregate scope. -/
def saveInfo (s : StoreState A E IE) (h : Handle) (i : StoredValueInfo) :
    StoreState A E IE :=
  { s with infos := upd1 s.infos h (some i) }

/-- `DiskKeyStore::get_info`.  Modelled from the spec: read the stored
info record, an error if it is absent. -/
def getInfo (s : StoreState A E IE) (h : Handle) :
    Except AggregateStoreError StoredValueInfo :=
  match s.infos h with
  | some i => Except.ok i
  | none => Except.error (AggregateStoreError.keyStoreError "info not found")

/-- `DiskKeyStore::get_event::<A::Event>`: a typed read of a stored event
record; an init event in the slot does not deserialize as a delta event. -/
def getEvent (s : StoreState A E IE) (h : Handle) (v : Nat) : Option E :=
  match s.events h v with
  | some (Sum.inr e) => some e
  | _ => none

/-- Replay stored events onto an aggregate, applying the event at the
aggregate's current version while one exists (`DiskKeyStore::
update_aggregate`, modelled from spec section 4.3: "apply the missing
events in order").  Fuel-bounded for termination. -/
def replayFrom (ops : AggregateOps A E C IE DErr) (s : StoreState A E IE)
    (h : Handle) : Nat → A → A
  | 0, a => a
  | fuel + 1, a =>
    match getEvent s h (ops.version a) with
    | some e => replayFrom ops s h fuel (ops.apply a e)
    | none => a

/-- Replay fuel: one more than the recorded `last_event`. -/
def replayFuel (s : StoreState A E IE) (h : Handle) : Nat :=
  match s.infos h with
  | some i => i.last_event + 1
  | none => 0

/-- `DiskKeyStore::get_aggregate`.  Modelled from the spec (section 4.3):
load the newest snapshot (falling back to the backup snapshot, then to the
init event) and apply all stored events beyond it. -/
def getAggregate (ops : AggregateOps A E C IE DErr) (s : StoreState A E IE)
    (h : Handle) : Option A :=
  let base :=
    match s.snapshot h with
    | some a => some a
    | none =>
      match s.backupSnapshot h with
      | some a => some a
      | none =>
        match s.events h 0 with
        | some (Sum.inl ie) => (ops.init ie).toOption
        | _ => none
  base.map (replayFrom ops s h (replayFuel s h))

/-- `DiskAggregateStore::get_latest_no_lock` (agg_store.rs lines 260-284):
serve from the cache, upgrading it by replay when a stored event at the
cached version shows there are updates; on a cache miss load from disk and
populate the cache; `UnknownAggregate` when nothing is stored. -/
def getLatestNoLock (ops : AggregateOps A E C IE DErr) (s : StoreState A E IE)
    (h : Handle) : Except AggregateStoreError (A × StoreState A E IE) :=
  match s.cache h with
  | none =>
    match getAggregate ops s h with
    | none => Except.error (AggregateStoreError.unknownAggregate h)
    | some a => Except.ok (a, { s with cache := upd1 s.cache h (some a) })
  | some a =>
    if (getEvent s h (ops.version a)).isSome then
      let a1 := replayFrom ops s h (replayFuel s h) a
      Except.ok (a1, { s with cache := upd1 s.cache h (some a1) })
    else
      Except.ok (a, s)

/-- `DiskAggregateStore::add` (agg_store.rs lines 296-313): store the init
event, construct the aggregate via `A::init` (failing `InitError` if it
rejects), store the first snapshot, save a default info record, cache the
aggregate. -/
def addFn (ops : AggregateOps A E C IE DErr) (s : StoreState A E IE) (ie : IE) :
    StoreState A E IE × Except AggregateStoreError A :=
  let s1 := storeInitEvent ops s ie
  let handle := ops.ievHandle ie
  match ops.init ie with
  | Except.error _ => (s1, Except.error AggregateStoreError.initError)
  | Except.ok aggregate =>
    let s2 := storeSnapshot ops s1 handle aggregate
    let s3 := saveInfo s2 handle {}
    let s4 := { s3 with cache := upd1 s3.cache handle (some aggregate) }
    (s4, Except.ok aggregate)

/-- The defensive event check of `DiskAggregateStore::command`
(agg_store.rs lines 382-387): every event must have this aggregate's
handle and version `version_before + i`. -/
def eventsOk (ops : AggregateOps A E C IE DErr) (h : Handle) :
    Nat → List E → Bool
  | _, [] => true
  | v, e :: rest =>
    decide (ops.evVersion e = v) && decide (ops.evHandle e = h)
      && eventsOk ops h (v + 1) rest

/-- The persist-and-apply loop of `DiskAggregateStore::command`
(agg_store.rs lines 395-408): store each event, apply it to the owned
aggregate, and whenever the new version is divisible by `SNAPSHOT_FREQ`
set `info.snapshot_version` and store a snapshot. -/
def applyLoop (ops : AggregateOps A E C IE DErr) (h : Handle) :
    StoreState A E IE → A → StoredValueInfo → List E →
    StoreState A E IE × A × StoredValueInfo
  | s, a, info, [] => (s, a, info)
  | s, a, info, e :: rest =>
    let s1 := storeEvent ops s e
    let a1 := ops.apply a e
    if ops.version a1 % SNAPSHOT_FREQ = 0 then
      applyLoop ops h (storeSnapshot ops s1 h a1) a1
        { info with snapshot_version := ops.version a1 } rest
    else
      applyLoop ops h s1 a1 info rest

/-- `DiskAggregateStore::command` (agg_store.rs lines 315-429), with the
current wall-clock time passed explicitly:
read info, set `last_update := now` and bump `last_command`; load the
latest aggregate; fail `ConcurrentModification` on an expected-version
mismatch (no write at all); then process the command -
on `Err` store a command record with `Error` effect and flush info;
on `Ok []` return the cached aggregate without saving anything (early
return, so the info bump is discarded);
on `Ok events` check the events (failing `WrongEventForAggregate` with no
write), store the command record with `Success` effect, store and apply
each event (snapshotting every `SNAPSHOT_FREQ` versions), bump
`last_event`, update the cache and flush info. -/
def commandFn (ops : AggregateOps A E C IE DErr) (s : StoreState A E IE)
    (cmd : C) (now : Nat) : StoreState A E IE × Except (AggErr DErr) A :=
  let handle := ops.cmdHandle cmd
  match getInfo s handle with
  | Except.error e => (s, Except.error (AggErr.store e))
  | Except.ok info0 =>
    let info1 := { info0 with last_update := now, last_command := info0.last_command + 1 }
    match getLatestNoLock ops s handle with
    | Except.error e => (s, Except.error (AggErr.store e))
    | Except.ok (latest, s1) =>
      if (match ops.cmdVersion cmd with
          | some v => decide (v ≠ ops.version latest)
          | none => false) then
        (s1, Except.error (AggErr.store (AggregateStoreError.concurrentModification handle)))
      else
        let versionBefore := ops.version latest
        let seq := info1.last_command
        match ops.processCommand latest cmd with
        | Except.error e =>
          let sc : StoredCommandRec :=
            { handle := handle, version := versionBefore, sequence := seq
              effect := StoredEffectRec.error (ops.errMsg e) }
          (saveInfo (storeCommand s1 sc) handle info1, Except.error (AggErr.domain e))
        | Except.ok events =>
          match events with
          | [] => (s1, Except.ok latest)
          | _ :: _ =>
            let info2 := { info1 with last_event := info1.last_event + events.length }
            if eventsOk ops handle versionBefore events then
              let sc : StoredCommandRec :=
                { handle := handle, version := versionBefore, sequence := seq
                  effect := StoredEffectRec.success (events.map ops.evVersion) }
              let s2 := storeCommand s1 sc
              let r := applyLoop ops handle s2 latest info2 events
              let s4 := { r.1 with cache := upd1 r.1.cache handle (some r.2.1) }
              (saveInfo s4 handle r.2.2, Except.ok r.2.1)
            else
              (s1, Except.error (AggErr.store AggregateStoreError.wrongEventForAggregate))

/-- The store states reachable through `add` and `command` from the empty
store.  `add` is only issued for a fresh aggregate handle with a genuine
init event (spec section 3: exactly one init event per aggregate, at
version 0). -/
inductive Reachable (ops : AggregateOps A E C IE DErr) : StoreState A E IE → Prop where
  | empty : Reachable ops StoreState.empty
  | add {s : StoreState A E IE} {ie : IE} :
      Reachable ops s → s.infos (ops.ievHandle ie) = none →
      ops.ievVersion ie = 0 →
      Reachable ops (addFn ops s ie).1
  | cmd {s : StoreState A E IE} {c : C} {now : Nat} :
      Reachable ops s → Reachable ops (commandFn ops s c now).1

/-- The handle recorded inside a stored event record. -/
def eventRecHandle (ops : AggregateOps A E C IE DErr) : Sum IE E → Handle
  | Sum.inl ie => ops.ievHandle ie
  | Sum.inr e => ops.evHandle e

/-- The version of the aggregate after applying each event of a list in
turn ("the aggregate's new version" at each step of the persist loop). -/
def interVersions (ops : AggregateOps A E C IE DErr) (a : A) : List E → List Nat
  | [] => []
  | e :: rest => ops.version (ops.apply a e) :: interVersions ops (ops.apply a e) rest

/-- Event contiguity invariant (spec section 8 property 2): for every
aggregate the stored delta-event versions are exactly `{1, …, last_event}`
with no gaps, every stored event record carries the handle of its scope,
init events sit at version 0, and the cached aggregate sits at version
`last_event + 1`. -/
def EventInvariant (ops : AggregateOps A E C IE DErr) (s : StoreState A E IE) : Prop :=
  (∀ h v x, s.events h v = some x → eventRecHandle ops x = h) ∧
  (∀ h v ie, s.events h v = some (Sum.inl ie) → v = 0) ∧
  (∀ h, s.infos h = none →
    s.cache h = none ∧ ∀ v e, s.events h v ≠ some (Sum.inr e)) ∧
  (∀ h i, s.infos h = some i →
    (∃ a, s.cache h = some a ∧ ops.version a = i.last_event + 1) ∧
    (∀ v, (∃ e, s.events h v = some (Sum.inr e)) ↔ 1 ≤ v ∧ v ≤ i.last_event))

end AggStore

/-! ## The Person example aggregate (mod.rs tests, lines 44-269)

The `Person` aggregate is the concrete aggregate shipped with the source
(the eventsourcing module's own example); it is used as the concrete
instance for witnesses and for the spec's E1 scenario. -/

/-- `InitPersonDetails` (mod.rs lines 59-62). -/
structure InitPersonDetails where
  name : String
deriving DecidableEq, Repr

/-- `InitPersonEvent = StoredEvent<InitPersonDetails>` (mod.rs line 51);
`InitPersonEvent::init` constructs it at version 0 (line 55). -/
structure InitPersonEvent where
  handle : Handle
  version : Nat
  details : InitPersonDetails
deriving DecidableEq, Repr

/-- `PersonEventDetails` (mod.rs lines 83-87). -/
inductive PersonEventDetails where
  | nameChanged (name : String)
  | hadBirthday
deriving DecidableEq, Repr

/-- `PersonEvent = StoredEvent<PersonEventDetails>` (mod.rs line 81). -/
structure PersonEvent where
  handle : Handle
  version : Nat
  details : PersonEventDetails
deriving DecidableEq, Repr

/-- `PersonCommandDetails` (mod.rs lines 125-132). -/
inductive PersonCommandDetails where
  | changeName (name : String)
  | goAroundTheSun
deriving DecidableEq, Repr

/-- `PersonCommand = SentCommand<PersonCommandDetails>` (mod.rs line 123):
handle, optional expected version, details. -/
structure PersonCommand where
  handle : Handle
  version : Option Nat
  details : PersonCommandDetails
deriving DecidableEq, Repr

/-- `PersonError` (mod.rs lines 169-176). -/
inductive PersonError where
  | tooOld
  | custom (msg : String)
deriving DecidableEq, Repr

/-- `Person` (mod.rs lines 196-210).  `age` is a `u8` in the source; the
`GoAroundTheSun` guard (`age == 255`) keeps it within `u8` range, so plain
natural-number arithmetic is an exact embedding. -/
structure Person where
  id : Handle
  version : Nat
  name : String
  age : Nat
deriving DecidableEq, Repr

/-- `Person::init` (mod.rs lines 231-239). -/
def Person.init (e : InitPersonEvent) : Except PersonError Person :=
  Except.ok { id := e.handle, version := 1, name := e.details.name, age := 0 }

/-- `Person::apply` (mod.rs lines 245-251). -/
def Person.applyEvent (p : Person) (e : PersonEvent) : Person :=
  match e.details with
  | PersonEventDetails.nameChanged name => { p with name := name, version := p.version + 1 }
  | PersonEventDetails.hadBirthday => { p with age := p.age + 1, version := p.version + 1 }

/-- `Person::process_command` (mod.rs lines 253-268). -/
def Person.processCommand (p : Person) (c : PersonCommand) :
    Except PersonError (List PersonEvent) :=
  match c.details with
  | PersonCommandDetails.changeName name =>
    Except.ok [{ handle := p.id, version := p.version
                 details := PersonEventDetails.nameChanged name }]
  | PersonCommandDetails.goAroundTheSun =>
    if p.age = 255 then Except.error PersonError.tooOld
    else Except.ok [{ handle := p.id, version := p.version
                      details := PersonEventDetails.hadBirthday }]

/-- The display string of `PersonError` (mod.rs lines 169-176), used for
the `Error{msg}` effect. -/
def PersonError.msg : PersonError → String
  | PersonError.tooOld => "No person can live longer than 255 years"
  | PersonError.custom m => m

/-- The `Aggregate` capability bundle for `Person`. -/
def personOps : AggregateOps Person PersonEvent PersonCommand InitPersonEvent PersonError :=
  { init := Person.init
    ievHandle := InitPersonEvent.handle
    ievVersion := InitPersonEvent.version
    version := Person.version
    apply := Person.applyEvent
    processCommand := Person.processCommand
    evVersion := PersonEvent.version
    evHandle := PersonEvent.handle
    cmdHandle := PersonCommand.handle
    cmdVersion := PersonCommand.version
    errMsg := PersonError.msg }

/-! ## Concrete instances used by the theorems below -/

/-- The E1 scenario's init event: `InitPersonEvent::init(&alice, "alice
smith")` (mod.rs line 280), at version 0. -/
def aliceInitEvent : InitPersonEvent :=
  { handle := "alice", version := 0, details := { name := "alice smith" } }

/-- The store right after `add(alice_init)`. -/
def aliceAddedState : StoreState Person PersonEvent InitPersonEvent :=
  (addFn personOps StoreState.empty aliceInitEvent).1

/-- `PersonCommand::go_around_sun(&alice, None)`. -/
def goAroundSun : PersonCommand :=
  { handle := "alice", version := none, details := PersonCommandDetails.goAroundTheSun }

/-- One `GoAroundTheSun` command step against the store (at a fixed
wall-clock time). -/
def birthdayStep (s : StoreState Person PersonEvent InitPersonEvent) :
    StoreState Person PersonEvent InitPersonEvent :=
  (commandFn personOps s goAroundSun 1000).1

/-- The store after the 21 `GoAroundTheSun` commands of scenario E1. -/
def aliceAfter21 : StoreState Person PersonEvent InitPersonEvent :=
  birthdayStep^[21] aliceAddedState

/-- A person at the `u8` age limit, used to drive the `Err` path of
`process_command` (mod.rs lines 259-262). -/
def oldPerson : Person :=
  { id := "alice", version := 256, name := "alice smith", age := 255 }

/-- A store holding `oldPerson`: info present, aggregate cached, no other
records. -/
def oldPersonState : StoreState Person PersonEvent InitPersonEvent :=
  { events := fun _ _ => none
    commands := fun _ _ => none
    snapshot := fun _ => none
    backupSnapshot := fun _ => none
    infos := fun h => if h = "alice" then
        some { last_event := 255, last_command := 7, snapshot_version := 255, last_update := 5 }
      else none
    cache := fun h => if h = "alice" then some oldPerson else none
    snapLog := [] }

/-- A degenerate aggregate whose `init` always rejects, exercising the
`InitError` path of `add`. -/
def fussyOps : AggregateOps Unit Unit Unit Unit Unit :=
  { init := fun _ => Except.error ()
    ievHandle := fun _ => "x"
    ievVersion := fun _ => 0
    version := fun _ => 1
    apply := fun a _ => a
    processCommand := fun _ _ => Except.ok []
    evVersion := fun _ => 0
    evHandle := fun _ => "x"
    cmdHandle := fun _ => "x"
    cmdVersion := fun _ => none
    errMsg := fun _ => "init rejected" }

/-- A degenerate aggregate whose `process_command` always returns the
empty event list (a no-op command). -/
def noopOps : AggregateOps Unit Unit Unit Unit Unit :=
  { init := fun _ => Except.ok ()
    ievHandle := fun _ => "x"
    ievVersion := fun _ => 0
    version := fun _ => 1
    apply := fun a _ => a
    processCommand := fun _ _ => Except.ok []
    evVersion := fun _ => 0
    evHandle := fun _ => "x"
    cmdHandle := fun _ => "x"
    cmdVersion := fun _ => none
    errMsg := fun _ => "" }

/-- A lying aggregate whose `process_command` returns an event with a
bogus version (999), tripping the defensive check of `command`. -/
def liarOps : AggregateOps Unit Unit Unit Unit Unit :=
  { init := fun _ => Except.ok ()
    ievHandle := fun _ => "x"
    ievVersion := fun _ => 0
    version := fun _ => 1
    apply := fun a _ => a
    processCommand := fun _ _ => Except.ok [()]
    evVersion := fun _ => 999
    evHandle := fun _ => "x"
    cmdHandle := fun _ => "x"
    cmdVersion := fun _ => none
    errMsg := fun _ => "" }

/-- A store for the degenerate `Unit` aggregates: one aggregate `"x"` with
a default info record and a cached instance. -/
def unitState : StoreState Unit Unit Unit :=
  { events := fun _ _ => none
    commands := fun _ _ => none
    snapshot := fun _ => none
    backupSnapshot := fun _ => none
    infos := fun h => if h = "x" then some {} else none
    cache := fun h => if h = "x" then some () else none
    snapLog := [] }

/-- Concrete key-value content for the `store_new` theorems: the single
key `k` (global scope) bound to `"old"`. -/
def kvOne : KvMap :=
  fun k => if k = { scope := [], name := "k" } then some "old" else none

/-- Concrete backend content for the `migrate_to_archive` theorem:
namespace `ca` holds `k ↦ "data"`, and a prior archive `archive_ca` holds
`k2 ↦ "stale"`. -/
def nsTwo : NsStore :=
  fun n k =>
    if n = "ca" ∧ k = { scope := [], name := "k" } then some "data"
    else if n = "archive_ca" ∧ k = { scope := [], name := "k2" } then some "stale"
    else none

/-- A concrete signer provider over an arbitrary concrete backend. -/
def probeBackend : SignerBackend :=
  { signFn := fun _ _ _ => Except.ok "sig"
    signOneOffFn := fun _ _ => Except.ok ("sig", "pub") }

/-- A concrete history record for the label-filter witness. -/
def renameRecord : CommandHistoryRecord :=
  { actor := "krill"
    timestamp := 1700
    handle := "alice"
    version := 22
    summary := { msg := "Change name to alice smith-doe"
                 label := "person-change-name", args := [] }
    effect := CommandHistoryResult.ok }

/-- `Person` satisfies the aggregate contract laws. -/
theorem personLaws : AggLaws personOps := by
  constructor
  · intro ie a h
    cases h
    rfl
  · intro a e
    cases e with
    | mk handle version details => cases details <;> rfl

/-! ## Claims about the key-value store -/

/-- C6, counterexample: with key `k` already bound, `store_new` does fail
and leave the store unchanged, but the error is
`KeyValueError::KVError(kvx::Error::Unknown)` (kv.rs line 127), not the
`DuplicateKey` error the claim names. -/
theorem claim_C6_counterexample :
    (storeNewFn kvOne { scope := [], name := "k" } "v").2
        = Except.error (KeyValueError.kvError KvxError.unknown) ∧
    (storeNewFn kvOne { scope := [], name := "k" } "v").2
        ≠ Except.error (KeyValueError.duplicateKey { scope := [], name := "k" }) := by
  constructor
  · rfl
  · intro h
    rw [show (storeNewFn kvOne { scope := [], name := "k" } "v").2
        = Except.error (KeyValueError.kvError KvxError.unknown) from rfl] at h
    exact absurd (Except.error.inj h) (by intro hx; cases hx)

/-- C6 (amended): `store_new`, executed inside a transaction on the key's
scope, stores the value and succeeds when the key is absent, and fails
with a `KVError(kvx Unknown)` error (not `DuplicateKey`) when the key
already exists, leaving the store - in particular the existing value -
unchanged. -/
theorem claim_C6 (s : KvMap) (k : KvKey) (v : String) :
    (s k = none →
      (storeNewFn s k v).2 = Except.ok () ∧
      (storeNewFn s k v).1 k = some v ∧
      ∀ k', k' ≠ k → (storeNewFn s k v).1 k' = s k') ∧
    (∀ w, s k = some w →
      (storeNewFn s k v).2 = Except.error (KeyValueError.kvError KvxError.unknown) ∧
      (storeNewFn s k v).1 = s) := by
  constructor
  · intro h
    refine ⟨by simp [storeNewFn, h], by simp [storeNewFn, h], ?_⟩
    intro k' hk'
    simp [storeNewFn, h, hk']
  · intro w h
    exact ⟨by simp [storeNewFn, h], by simp [storeNewFn, h]⟩

/-- Witness for C6: both branches of the amended claim at concrete keys. -/
theorem claim_C6_witness :
    (kvOne { scope := [], name := "fresh" } = none ∧
      (storeNewFn kvOne { scope := [], name := "fresh" } "v").2 = Except.ok ()) ∧
    (kvOne { scope := [], name := "k" } = some "old" ∧
      (storeNewFn kvOne { scope := [], name := "k" } "v").1 = kvOne) :=
  ⟨⟨by decide, ((claim_C6 kvOne { scope := [], name := "fresh" } "v").1 (by decide)).1⟩,
   ⟨by decide, ((claim_C6 kvOne { scope := [], name := "k" } "v").2 "old" (by decide)).2⟩⟩

/-- C7, failing input: `migrate_to_archive` on namespace `ca` (holding
`k ↦ "data"`, with a stale archive `archive_ca` holding `k2 ↦ "stale"`).
The source wipes the store created for `namespace` - the *current*
namespace - instead of the archive namespace (kv.rs line 72), so the data
is destroyed before the rename: the archived namespace comes out empty
instead of preserving the current contents, contradicting the function's
own comment ("Wipe any existing archive, before archiving this store"). -/
theorem claim_C7_failing :
    nsTwo "ca" { scope := [], name := "k" } = some "data" ∧
    (migrateToArchive nsTwo "ca").1 "archive_ca" { scope := [], name := "k" } = none ∧
    (migrateToArchive nsTwo "ca").1 "ca" { scope := [], name := "k" } = none ∧
    (migrateToArchive nsTwo "ca").1 "archive_ca" { scope := [], name := "k2" } = none := by
  refine ⟨by decide, by decide, by decide, by decide⟩

/-! ## Claim about the signer dispatcher -/

/-- C8: `sign` and `sign_one_off` with a signing algorithm other than
`RsaSha256` fail `UnsupportedSigningAlg` for every provider variant and
every backend behaviour - the result does not depend on the wrapped
backend, which is how "the backend is not invoked" manifests in a pure
embedding - while for `RsaSha256` the call is dispatched to the wrapped
backend. -/
theorem claim_C8 (p : SignerProvider) (key data : String) (alg : SigningAlgorithm) :
    (alg ≠ SigningAlgorithm.rsaSha256 →
      p.sign key alg data = Except.error (SignerError.unsupportedSigningAlg alg) ∧
      p.signOneOff alg data = Except.error (SignerError.unsupportedSigningAlg alg)) ∧
    (p.sign key SigningAlgorithm.rsaSha256 data
        = p.backend.signFn key SigningAlgorithm.rsaSha256 data ∧
      p.signOneOff SigningAlgorithm.rsaSha256 data
        = p.backend.signOneOffFn SigningAlgorithm.rsaSha256 data) := by
  constructor
  · intro h
    constructor <;> simp [SignerProvider.sign, SignerProvider.signOneOff, h]
  · constructor <;>
      cases p <;>
        simp [SignerProvider.sign, SignerProvider.signOneOff, SignerProvider.backend]

/-- Witness for C8: a concrete ECDSA request against a concrete OpenSSL
provider is rejected. -/
theorem claim_C8_witness :
    SigningAlgorithm.ecdsaP256Sha256 ≠ SigningAlgorithm.rsaSha256 ∧
    (SignerProvider.openSsl ⟨true, false⟩ probeBackend).sign "kid"
        SigningAlgorithm.ecdsaP256Sha256 "data"
      = Except.error (SignerError.unsupportedSigningAlg SigningAlgorithm.ecdsaP256Sha256) :=
  ⟨by decide,
   ((claim_C8 (SignerProvider.openSsl ⟨true, false⟩ probeBackend) "kid" "data"
      SigningAlgorithm.ecdsaP256Sha256).1 (by decide)).1⟩

/-! ## Claim about the history label filter -/

/-- C9: `matches_label` returns true iff (when `label_includes` is set)
the label is a member and (when `label_excludes` is set) the label is not
a member; hence a record matching criteria with `label_includes=[L]` has
`summary.label = L`, and one matching criteria with `label_excludes=[L]`
does not. -/
theorem claim_C9 :
    (∀ (c : CommandHistoryCriteria) (label : String),
      c.matchesLabel label = true ↔
        ((∀ includes, c.label_includes = some includes → label ∈ includes) ∧
         (∀ excludes, c.label_excludes = some excludes → label ∉ excludes))) ∧
    (∀ (r : CommandHistoryRecord) (c : CommandHistoryCriteria) (L : String),
      c.label_includes = some [L] → r.matches c = true → r.summary.label = L) ∧
    (∀ (r : CommandHistoryRecord) (c : CommandHistoryCriteria) (L : String),
      c.label_excludes = some [L] → r.matches c = true → r.summary.label ≠ L) := by
  have base : ∀ (c : CommandHistoryCriteria) (label : String),
      c.matchesLabel label = true ↔
        ((∀ includes, c.label_includes = some includes → label ∈ includes) ∧
         (∀ excludes, c.label_excludes = some excludes → label ∉ excludes)) := by
    intro c label
    cases hinc : c.label_includes <;> cases hexc : c.label_excludes <;>
      simp [CommandHistoryCriteria.matchesLabel, hinc, hexc]
  refine ⟨base, ?_, ?_⟩
  · intro r c L hinc hm
    rw [CommandHistoryRecord.matches, Bool.and_eq_true, Bool.and_eq_true] at hm
    have hl := (base c r.summary.label).1 hm.2
    have := hl.1 [L] hinc
    simpa using this
  · intro r c L hexc hm
    rw [CommandHistoryRecord.matches, Bool.and_eq_true, Bool.and_eq_true] at hm
    have hl := (base c r.summary.label).1 hm.2
    have := hl.2 [L] hexc
    simpa using this

/-- Witness for C9: the E4-style record matches criteria including its
label, and its label is forced to be that label. -/
theorem claim_C9_witness :
    ({ label_includes := some ["person-change-name"] } :
        CommandHistoryCriteria).matchesLabel "person-change-name" = true ∧
    renameRecord.matches { label_includes := some ["person-change-name"] } = true ∧
    renameRecord.summary.label = "person-change-name" ∧
    renameRecord.summary.label ≠ "person-around-sun" :=
  ⟨by decide, by decide,
   (claim_C9.2.1 renameRecord { label_includes := some ["person-change-name"] }
      "person-change-name" rfl (by decide)),
   (claim_C9.2.2 renameRecord { label_excludes := some ["person-around-sun"] }
      "person-around-sun" rfl (by decide))⟩

/-! ## Claims about the aggregate store -/

/-- C10: `add` stores the init event before invoking `A::init`
(agg_store.rs lines 299-303); when `init` rejects, `add` returns
`InitError` with the init event stored but no snapshot, info record or
cache entry written - a failed `add` observably changes the store. -/
theorem claim_C10 {A E C IE DErr : Type} (ops : AggregateOps A E C IE DErr)
    (s : StoreState A E IE) (ie : IE) (err : DErr)
    (hinit : ops.init ie = Except.error err) :
    (addFn ops s ie).2 = Except.error AggregateStoreError.initError ∧
    (addFn ops s ie).1.events (ops.ievHandle ie) (ops.ievVersion ie) = some (Sum.inl ie) ∧
    (∀ h v, ¬(h = ops.ievHandle ie ∧ v = ops.ievVersion ie) →
      (addFn ops s ie).1.events h v = s.events h v) ∧
    (addFn ops s ie).1.commands = s.commands ∧
    (addFn ops s ie).1.snapshot = s.snapshot ∧
    (addFn ops s ie).1.backupSnapshot = s.backupSnapshot ∧
    (addFn ops s ie).1.infos = s.infos ∧
    (addFn ops s ie).1.cache = s.cache := by
  refine ⟨by simp [addFn, hinit], by simp [addFn, hinit, storeInitEvent, upd2], ?_,
    by simp [addFn, hinit, storeInitEvent],
    by simp [addFn, hinit, storeInitEvent],
    by simp [addFn, hinit, storeInitEvent],
    by simp [addFn, hinit, storeInitEvent],
    by simp [addFn, hinit, storeInitEvent]⟩
  intro h v hne
  simp [addFn, hinit, storeInitEvent, upd2, hne]

section CommandClaims

variable {A E C IE DErr : Type}

/-- `get_info` on a handle whose info record exists. -/
theorem getInfo_some {s : StoreState A E IE} {h : Handle} {i : StoredValueInfo}
    (h1 : s.infos h = some i) : getInfo s h = Except.ok i := by
  rw [getInfo, h1]

/-- `get_latest_no_lock` on a cache hit with no pending stored event at
the cached version: serves the cached aggregate, no state change. -/
theorem getLatest_cacheHit (ops : AggregateOps A E C IE DErr)
    {s : StoreState A E IE} {h : Handle} {a : A}
    (hcache : s.cache h = some a)
    (hnoev : getEvent s h (ops.version a) = none) :
    getLatestNoLock ops s h = Except.ok (a, s) := by
  rw [getLatestNoLock, hcache]
  simp [hnoev]

end CommandClaims

/-- Witness for C10: the fussy aggregate's rejected init at the empty
store leaves the init event behind. -/
theorem claim_C10_witness :
    (addFn fussyOps StoreState.empty ()).2 = Except.error AggregateStoreError.initError ∧
    (addFn fussyOps StoreState.empty ()).1.events "x" 0 = some (Sum.inl ()) ∧
    (addFn fussyOps StoreState.empty ()).1.infos
      = (StoreState.empty : StoreState Unit Unit Unit).infos :=
  ⟨(claim_C10 fussyOps StoreState.empty () () rfl).1,
   (claim_C10 fussyOps StoreState.empty () () rfl).2.1,
   (claim_C10 fussyOps StoreState.empty () () rfl).2.2.2.2.2.2.1⟩

/-- C1: a command carrying an expected version different from the current
aggregate version fails `ConcurrentModification` and the store state is
returned exactly as it was: no command record, no event record, and the
stored info record - `last_command`, `last_update` included - unchanged
(agg_store.rs lines 330-341 return before any store write). -/
theorem claim_C1 {A E C IE DErr : Type} (ops : AggregateOps A E C IE DErr)
    (s : StoreState A E IE) (cmd : C) (now v : Nat)
    (info0 : StoredValueInfo) (latest : A)
    (hinfo : s.infos (ops.cmdHandle cmd) = some info0)
    (hcache : s.cache (ops.cmdHandle cmd) = some latest)
    (hnoev : getEvent s (ops.cmdHandle cmd) (ops.version latest) = none)
    (hv : ops.cmdVersion cmd = some v)
    (hne : v ≠ ops.version latest) :
    commandFn ops s cmd now =
      (s, Except.error (AggErr.store
        (AggregateStoreError.concurrentModification (ops.cmdHandle cmd)))) := by
  rw [commandFn, getInfo_some hinfo, getLatest_cacheHit ops hcache hnoev]
  simp [hv, hne]

/-- Witness for C1: `GoAroundTheSun` with expected version 22 against the
freshly added `alice` (version 1) fails `ConcurrentModification` and
leaves the store exactly as it was. -/
theorem claim_C1_witness :
    commandFn personOps aliceAddedState
        { handle := "alice", version := some 22
          details := PersonCommandDetails.goAroundTheSun } 1000 =
      (aliceAddedState, Except.error (AggErr.store
        (AggregateStoreError.concurrentModification "alice"))) :=
  claim_C1 personOps aliceAddedState
    { handle := "alice", version := some 22
      details := PersonCommandDetails.goAroundTheSun } 1000 22
    {} { id := "alice", version := 1, name := "alice smith", age := 0 }
    (by decide) (by decide) (by decide) (by decide) (by decide)

/-- C2: when `process_command` fails with a domain error `e`, `command`
persists exactly one new command record - with `Error{msg}` effect, under
the aggregate's scope at the consumed sequence number - persists zero
events, leaves the cached aggregate state and the snapshots unchanged,
flushes the info record with `last_command` incremented by one (and
`last_update := now`, `last_event` unchanged), and returns `e`
(agg_store.rs lines 345-351 and 424-428). -/
theorem claim_C2 {A E C IE DErr : Type} (ops : AggregateOps A E C IE DErr)
    (s : StoreState A E IE) (cmd : C) (now : Nat)
    (info0 : StoredValueInfo) (latest : A) (e : DErr)
    (hinfo : s.infos (ops.cmdHandle cmd) = some info0)
    (hcache : s.cache (ops.cmdHandle cmd) = some latest)
    (hnoev : getEvent s (ops.cmdHandle cmd) (ops.version latest) = none)
    (hver : ∀ v, ops.cmdVersion cmd = some v → v = ops.version latest)
    (hproc : ops.processCommand latest cmd = Except.error e)
    (hfresh : s.commands (ops.cmdHandle cmd) (info0.last_command + 1) = none) :
    (commandFn ops s cmd now).2 = Except.error (AggErr.domain e) ∧
    (commandFn ops s cmd now).1.commands (ops.cmdHandle cmd) (info0.last_command + 1)
      = some { handle := ops.cmdHandle cmd, version := ops.version latest
               sequence := info0.last_command + 1
               effect := StoredEffectRec.error (ops.errMsg e) } ∧
    (∀ h q, ¬(h = ops.cmdHandle cmd ∧ q = info0.last_command + 1) →
      (commandFn ops s cmd now).1.commands h q = s.commands h q) ∧
    (commandFn ops s cmd now).1.events = s.events ∧
    (commandFn ops s cmd now).1.cache = s.cache ∧
    (commandFn ops s cmd now).1.snapshot = s.snapshot ∧
    (commandFn ops s cmd now).1.backupSnapshot = s.backupSnapshot ∧
    (commandFn ops s cmd now).1.infos (ops.cmdHandle cmd)
      = some { last_event := info0.last_event, last_command := info0.last_command + 1
               snapshot_version := info0.snapshot_version, last_update := now } ∧
    (∀ h, h ≠ ops.cmdHandle cmd → (commandFn ops s cmd now).1.infos h = s.infos h) := by
  have hcmd : commandFn ops s cmd now =
      (saveInfo (storeCommand s
          { handle := ops.cmdHandle cmd, version := ops.version latest
            sequence := info0.last_command + 1
            effect := StoredEffectRec.error (ops.errMsg e) })
        (ops.cmdHandle cmd)
        { last_event := info0.last_event, last_command := info0.last_command + 1
          snapshot_version := info0.snapshot_version, last_update := now },
       Except.error (AggErr.domain e)) := by
    rw [commandFn, getInfo_some hinfo, getLatest_cacheHit ops hcache hnoev]
    have hcond : (match ops.cmdVersion cmd with
        | some v => !decide (v = ops.version latest)
        | none => false) = false := by
      cases hv : ops.cmdVersion cmd with
      | none => rfl
      | some v => simp [hver v hv]
    simp [hcond, hproc]
  rw [hcmd]
  refine ⟨rfl, by simp [saveInfo, storeCommand, upd2], ?_, rfl, rfl, rfl, rfl,
    by simp [saveInfo, storeCommand, upd1], ?_⟩
  · intro h q hne
    simp [saveInfo, storeCommand, upd2, hne]
  · intro h hne
    simp [saveInfo, storeCommand, upd1, hne]

/-- Witness for C2: `GoAroundTheSun` against a 255-year-old person fails
`TooOld`; exactly the error command record (sequence 8) and the flushed
info record are written. -/
theorem claim_C2_witness :
    (commandFn personOps oldPersonState goAroundSun 1000).2
      = Except.error (AggErr.domain PersonError.tooOld) ∧
    (commandFn personOps oldPersonState goAroundSun 1000).1.commands "alice" 8
      = some { handle := "alice", version := 256, sequence := 8
               effect := StoredEffectRec.error
                 "No person can live longer than 255 years" } ∧
    (commandFn personOps oldPersonState goAroundSun 1000).1.events
      = oldPersonState.events ∧
    (commandFn personOps oldPersonState goAroundSun 1000).1.infos "alice"
      = some { last_event := 255, last_command := 8, snapshot_version := 255
               last_update := 1000 } :=
  have h := claim_C2 personOps oldPersonState goAroundSun 1000
    { last_event := 255, last_command := 7, snapshot_version := 255, last_update := 5 }
    oldPerson PersonError.tooOld
    (by decide) (by decide) (by decide) (by intro v hv; cases hv) (by rfl) (by decide)
  ⟨h.1, h.2.1, h.2.2.2.1, h.2.2.2.2.2.2.2.1⟩

/-- C3: a no-op command (`process_command` returns `Ok []`) returns the
cached latest aggregate and changes nothing at all: the early return at
agg_store.rs line 355 skips `save_info`, so the in-memory `last_command`
bump is discarded and the stored info record - `last_command`,
`last_event`, `last_update` - plus the command log, the events and the
snapshots are all unchanged. -/
theorem claim_C3 {A E C IE DErr : Type} (ops : AggregateOps A E C IE DErr)
    (s : StoreState A E IE) (cmd : C) (now : Nat)
    (info0 : StoredValueInfo) (latest : A)
    (hinfo : s.infos (ops.cmdHandle cmd) = some info0)
    (hcache : s.cache (ops.cmdHandle cmd) = some latest)
    (hnoev : getEvent s (ops.cmdHandle cmd) (ops.version latest) = none)
    (hver : ∀ v, ops.cmdVersion cmd = some v → v = ops.version latest)
    (hproc : ops.processCommand latest cmd = Except.ok []) :
    commandFn ops s cmd now = (s, Except.ok latest) := by
  rw [commandFn, getInfo_some hinfo, getLatest_cacheHit ops hcache hnoev]
  have hcond : (match ops.cmdVersion cmd with
      | some v => !decide (v = ops.version latest)
      | none => false) = false := by
    cases hv : ops.cmdVersion cmd with
    | none => rfl
    | some v => simp [hver v hv]
  simp [hcond, hproc]

/-- Witness for C3: a no-op command against the `Unit` aggregate returns
the cached aggregate with the store untouched. -/
theorem claim_C3_witness :
    commandFn noopOps unitState () 1000 = (unitState, Except.ok ()) :=
  claim_C3 noopOps unitState () 1000 {} ()
    (by decide) (by decide) (by decide) (by intro v hv; cases hv) (by rfl)

section SnapshotClaims

variable {A E C IE DErr : Type} (ops : AggregateOps A E C IE DErr)

/-- The persist-and-apply loop writes a snapshot exactly at the
intermediate versions divisible by `SNAPSHOT_FREQ`, in order (ghost
snapshot log, newest first). -/
theorem applyLoop_snapLog (h : Handle) :
    ∀ (evs : List E) (s : StoreState A E IE) (a : A) (info : StoredValueInfo),
      (applyLoop ops h s a info evs).1.snapLog =
        (((interVersions ops a evs).filter
            (fun v => decide (v % SNAPSHOT_FREQ = 0))).reverse.map
          (fun v => (h, v))) ++ s.snapLog := by
  intro evs
  induction evs with
  | nil => intro s a info; simp [applyLoop, interVersions]
  | cons e rest ih =>
    intro s a info
    rw [applyLoop, interVersions]
    by_cases hd : ops.version (ops.apply a e) % SNAPSHOT_FREQ = 0
    · simp only [hd, if_true, ih]
      simp [storeSnapshot, storeEvent, hd]
    · simp only [hd, if_false, ih]
      simp [storeEvent, hd]

/-- The persist-and-apply loop sets `info.snapshot_version` to the last
snapshotted version (unchanged when no snapshot is due). -/
theorem applyLoop_snapshotVersion (h : Handle) :
    ∀ (evs : List E) (s : StoreState A E IE) (a : A) (info : StoredValueInfo),
      (applyLoop ops h s a info evs).2.2.snapshot_version =
        ((interVersions ops a evs).filter
            (fun v => decide (v % SNAPSHOT_FREQ = 0))).foldl
          (fun _ v => v) info.snapshot_version := by
  intro evs
  induction evs with
  | nil => intro s a info; simp [applyLoop, interVersions]
  | cons e rest ih =>
    intro s a info
    rw [applyLoop, interVersions]
    by_cases hd : ops.version (ops.apply a e) % SNAPSHOT_FREQ = 0
    · simp only [hd, if_true, ih]
      simp [hd]
    · simp only [hd, if_false, ih]
      simp [hd]

end SnapshotClaims

section CommandEval

variable {A E C IE DErr : Type} (ops : AggregateOps A E C IE DErr)
variable {s : StoreState A E IE} {cmd : C} {info0 : StoredValueInfo} {latest : A}

/-- `command` on a handle without a stored info record fails before doing
anything. -/
theorem commandFn_noInfo_eq (now : Nat)
    (hinfo : s.infos (ops.cmdHandle cmd) = none) :
    commandFn ops s cmd now =
      (s, Except.error (AggErr.store (AggregateStoreError.keyStoreError "info not found"))) := by
  rw [commandFn, getInfo, hinfo]

/-- Evaluation of `command` on an expected-version mismatch: fail
`ConcurrentModification` with the state untouched. -/
theorem commandFn_conflict_eq (now v : Nat)
    (hinfo : s.infos (ops.cmdHandle cmd) = some info0)
    (hcache : s.cache (ops.cmdHandle cmd) = some latest)
    (hnoev : getEvent s (ops.cmdHandle cmd) (ops.version latest) = none)
    (hv : ops.cmdVersion cmd = some v)
    (hne : v ≠ ops.version latest) :
    commandFn ops s cmd now =
      (s, Except.error (AggErr.store
        (AggregateStoreError.concurrentModification (ops.cmdHandle cmd)))) := by
  rw [commandFn, getInfo_some hinfo, getLatest_cacheHit ops hcache hnoev]
  simp [hv, hne]

/-- Evaluation of `command` on a no-op (cache hit, no version conflict,
`process_command` returns `Ok []`): early return, nothing written. -/
theorem commandFn_noop_eq (now : Nat)
    (hinfo : s.infos (ops.cmdHandle cmd) = some info0)
    (hcache : s.cache (ops.cmdHandle cmd) = some latest)
    (hnoev : getEvent s (ops.cmdHandle cmd) (ops.version latest) = none)
    (hver : ∀ v, ops.cmdVersion cmd = some v → v = ops.version latest)
    (hproc : ops.processCommand latest cmd = Except.ok []) :
    commandFn ops s cmd now = (s, Except.ok latest) := by
  rw [commandFn, getInfo_some hinfo, getLatest_cacheHit ops hcache hnoev]
  have hcond : (match ops.cmdVersion cmd with
      | some v => !decide (v = ops.version latest)
      | none => false) = false := by
    cases hv : ops.cmdVersion cmd with
    | none => rfl
    | some v => simp [hver v hv]
  simp [hcond, hproc]

/-- Evaluation of `command` when `process_command` fails (cache hit, no
version conflict): the command record with `Error` effect is stored and
the bumped info record is flushed. -/
theorem commandFn_error_eq (now : Nat) {e : DErr}
    (hinfo : s.infos (ops.cmdHandle cmd) = some info0)
    (hcache : s.cache (ops.cmdHandle cmd) = some latest)
    (hnoev : getEvent s (ops.cmdHandle cmd) (ops.version latest) = none)
    (hver : ∀ v, ops.cmdVersion cmd = some v → v = ops.version latest)
    (hproc : ops.processCommand latest cmd = Except.error e) :
    commandFn ops s cmd now =
      (saveInfo (storeCommand s
          { handle := ops.cmdHandle cmd, version := ops.version latest
            sequence := info0.last_command + 1
            effect := StoredEffectRec.error (ops.errMsg e) })
        (ops.cmdHandle cmd)
        { last_event := info0.last_event, last_command := info0.last_command + 1
          snapshot_version := info0.snapshot_version, last_update := now },
       Except.error (AggErr.domain e)) := by
  rw [commandFn, getInfo_some hinfo, getLatest_cacheHit ops hcache hnoev]
  have hcond : (match ops.cmdVersion cmd with
      | some v => !decide (v = ops.version latest)
      | none => false) = false := by
    cases hv : ops.cmdVersion cmd with
    | none => rfl
    | some v => simp [hver v hv]
  simp [hcond, hproc]

/-- Evaluation of `command` when `process_command` returns a non-empty
event list failing the defensive check: `WrongEventForAggregate`, nothing
written. -/
theorem commandFn_badEvents_eq (now : Nat) {e : E} {es : List E}
    (hinfo : s.infos (ops.cmdHandle cmd) = some info0)
    (hcache : s.cache (ops.cmdHandle cmd) = some latest)
    (hnoev : getEvent s (ops.cmdHandle cmd) (ops.version latest) = none)
    (hver : ∀ v, ops.cmdVersion cmd = some v → v = ops.version latest)
    (hproc : ops.processCommand latest cmd = Except.ok (e :: es))
    (hok : eventsOk ops (ops.cmdHandle cmd) (ops.version latest) (e :: es) = false) :
    commandFn ops s cmd now =
      (s, Except.error (AggErr.store AggregateStoreError.wrongEventForAggregate)) := by
  rw [commandFn, getInfo_some hinfo, getLatest_cacheHit ops hcache hnoev]
  have hcond : (match ops.cmdVersion cmd with
      | some v => !decide (v = ops.version latest)
      | none => false) = false := by
    cases hv : ops.cmdVersion cmd with
    | none => rfl
    | some v => simp [hver v hv]
  simp [hcond, hproc, hok]

/-- Evaluation of `command` when `process_command` returns a non-empty
event list passing the defensive check: the `Success` command record is
stored, the events are stored and applied (snapshotting on the way), the
cache is updated and the bumped info record (with `last_event` advanced)
is flushed. -/
theorem commandFn_success_eq (now : Nat) {e : E} {es : List E}
    (hinfo : s.infos (ops.cmdHandle cmd) = some info0)
    (hcache : s.cache (ops.cmdHandle cmd) = some latest)
    (hnoev : getEvent s (ops.cmdHandle cmd) (ops.version latest) = none)
    (hver : ∀ v, ops.cmdVersion cmd = some v → v = ops.version latest)
    (hproc : ops.processCommand latest cmd = Except.ok (e :: es))
    (hok : eventsOk ops (ops.cmdHandle cmd) (ops.version latest) (e :: es) = true) :
    commandFn ops s cmd now =
      (saveInfo
        { (applyLoop ops (ops.cmdHandle cmd)
            (storeCommand s
              { handle := ops.cmdHandle cmd, version := ops.version latest
                sequence := info0.last_command + 1
                effect := StoredEffectRec.success ((e :: es).map ops.evVersion) })
            latest
            { last_event := info0.last_event + (e :: es).length
              last_command := info0.last_command + 1
              snapshot_version := info0.snapshot_version, last_update := now }
            (e :: es)).1 with
          cache := upd1 (applyLoop ops (ops.cmdHandle cmd)
            (storeCommand s
              { handle := ops.cmdHandle cmd, version := ops.version latest
                sequence := info0.last_command + 1
                effect := StoredEffectRec.success ((e :: es).map ops.evVersion) })
            latest
            { last_event := info0.last_event + (e :: es).length
              last_command := info0.last_command + 1
              snapshot_version := info0.snapshot_version, last_update := now }
            (e :: es)).1.cache (ops.cmdHandle cmd)
            (some (applyLoop ops (ops.cmdHandle cmd)
              (storeCommand s
                { handle := ops.cmdHandle cmd, version := ops.version latest
                  sequence := info0.last_command + 1
                  effect := StoredEffectRec.success ((e :: es).map ops.evVersion) })
              latest
              { last_event := info0.last_event + (e :: es).length
                last_command := info0.last_command + 1
                snapshot_version := info0.snapshot_version, last_update := now }
              (e :: es)).2.1) }
        (ops.cmdHandle cmd)
        (applyLoop ops (ops.cmdHandle cmd)
          (storeCommand s
            { handle := ops.cmdHandle cmd, version := ops.version latest
              sequence := info0.last_command + 1
              effect := StoredEffectRec.success ((e :: es).map ops.evVersion) })
          latest
          { last_event := info0.last_event + (e :: es).length
            last_command := info0.last_command + 1
            snapshot_version := info0.snapshot_version, last_update := now }
          (e :: es)).2.2,
       Except.ok (applyLoop ops (ops.cmdHandle cmd)
          (storeCommand s
            { handle := ops.cmdHandle cmd, version := ops.version latest
              sequence := info0.last_command + 1
              effect := StoredEffectRec.success ((e :: es).map ops.evVersion) })
          latest
          { last_event := info0.last_event + (e :: es).length
            last_command := info0.last_command + 1
            snapshot_version := info0.snapshot_version, last_update := now }
          (e :: es)).2.1) := by
  rw [commandFn, getInfo_some hinfo, getLatest_cacheHit ops hcache hnoev]
  have hcond : (match ops.cmdVersion cmd with
      | some v => !decide (v = ops.version latest)
      | none => false) = false := by
    cases hv : ops.cmdVersion cmd with
    | none => rfl
    | some v => simp [hver v hv]
  simp [hcond, hproc, hok]

end CommandEval

section ApplyLoopLemmas

variable {A E C IE DErr : Type} (ops : AggregateOps A E C IE DErr)

/-- The persist-and-apply loop touches neither the command records nor the
info records nor the cache. -/
theorem applyLoop_frame (h : Handle) :
    ∀ (evs : List E) (s : StoreState A E IE) (a : A) (info : StoredValueInfo),
      (applyLoop ops h s a info evs).1.commands = s.commands ∧
      (applyLoop ops h s a info evs).1.infos = s.infos ∧
      (applyLoop ops h s a info evs).1.cache = s.cache := by
  intro evs
  induction evs with
  | nil => intro s a info; exact ⟨rfl, rfl, rfl⟩
  | cons e rest ih =>
    intro s a info
    rw [applyLoop]
    by_cases hd : ops.version (ops.apply a e) % SNAPSHOT_FREQ = 0
    · simp only [hd, if_true]
      exact ih _ _ _
    · simp only [hd, if_false]
      exact ih _ _ _

/-- The persist-and-apply loop leaves the counters of the info record
unchanged (it only modifies `snapshot_version`). -/
theorem applyLoop_infoCounters (h : Handle) :
    ∀ (evs : List E) (s : StoreState A E IE) (a : A) (info : StoredValueInfo),
      (applyLoop ops h s a info evs).2.2.last_event = info.last_event ∧
      (applyLoop ops h s a info evs).2.2.last_command = info.last_command ∧
      (applyLoop ops h s a info evs).2.2.last_update = info.last_update := by
  intro evs
  induction evs with
  | nil => intro s a info; exact ⟨rfl, rfl, rfl⟩
  | cons e rest ih =>
    intro s a info
    rw [applyLoop]
    by_cases hd : ops.version (ops.apply a e) % SNAPSHOT_FREQ = 0
    · simp only [hd, if_true]
      exact ih _ _ _
    · simp only [hd, if_false]
      exact ih _ _ _

/-- Under the aggregate contract the loop's resulting aggregate sits
`evs.length` versions above the starting one. -/
theorem applyLoop_version (laws : AggLaws ops) (h : Handle) :
    ∀ (evs : List E) (s : StoreState A E IE) (a : A) (info : StoredValueInfo),
      ops.version (applyLoop ops h s a info evs).2.1 = ops.version a + evs.length := by
  intro evs
  induction evs with
  | nil => intro s a info; rfl
  | cons e rest ih =>
    intro s a info
    rw [applyLoop]
    by_cases hd : ops.version (ops.apply a e) % SNAPSHOT_FREQ = 0
    · simp only [hd, if_true]
      rw [ih, laws.apply_version]
      simp [List.length_cons]
      omega
    · simp only [hd, if_false]
      rw [ih, laws.apply_version]
      simp [List.length_cons]
      omega

/-- Unfolding of the defensive event check on a cons cell. -/
theorem eventsOk_cons {h : Handle} {v : Nat} {e : E} {rest : List E}
    (hok : eventsOk ops h v (e :: rest) = true) :
    ops.evVersion e = v ∧ ops.evHandle e = h ∧ eventsOk ops h (v + 1) rest = true := by
  rw [eventsOk, Bool.and_eq_true, Bool.and_eq_true] at hok
  exact ⟨of_decide_eq_true hok.1.1, of_decide_eq_true hok.1.2, hok.2⟩

/-- Outside the window `[version a, version a + evs.length)` of the
aggregate's scope, the loop leaves the event records untouched. -/
theorem applyLoop_events_out (laws : AggLaws ops) (h : Handle) :
    ∀ (evs : List E) (s : StoreState A E IE) (a : A) (info : StoredValueInfo)
      (h' : Handle) (v : Nat),
      eventsOk ops h (ops.version a) evs = true →
      (h' ≠ h ∨ v < ops.version a ∨ ops.version a + evs.length ≤ v) →
      (applyLoop ops h s a info evs).1.events h' v = s.events h' v := by
  intro evs
  induction evs with
  | nil => intro s a info h' v _ _; rfl
  | cons e rest ih =>
    intro s a info h' v hok hout
    obtain ⟨hev, heh, hrest⟩ := eventsOk_cons ops hok
    have hrest' : eventsOk ops h (ops.version (ops.apply a e)) rest = true := by
      rw [laws.apply_version]; exact hrest
    have hout' : h' ≠ h ∨ v < ops.version (ops.apply a e) ∨
        ops.version (ops.apply a e) + rest.length ≤ v := by
      rw [laws.apply_version]
      rcases hout with h1 | h2 | h3
      · exact Or.inl h1
      · exact Or.inr (Or.inl (Nat.lt_succ_of_lt h2))
      · refine Or.inr (Or.inr ?_)
        simp only [List.length_cons] at h3
        omega
    have hslot : ¬(h' = h ∧ v = ops.version a) := by
      rintro ⟨rfl, rfl⟩
      rcases hout with h1 | h2 | h3
      · exact h1 rfl
      · exact absurd h2 (lt_irrefl _)
      · simp only [List.length_cons] at h3
        omega
    rw [applyLoop]
    by_cases hd : ops.version (ops.apply a e) % SNAPSHOT_FREQ = 0
    · simp only [hd, if_true]
      rw [ih _ _ _ _ _ hrest' hout']
      simp [storeSnapshot, storeEvent, upd2, hev, heh, hslot]
    · simp only [hd, if_false]
      rw [ih _ _ _ _ _ hrest' hout']
      simp [storeEvent, upd2, hev, heh, hslot]

/-- Inside the window `[version a, version a + evs.length)` the loop has
stored a delta event carrying the aggregate's handle and that version. -/
theorem applyLoop_events_in (laws : AggLaws ops) (h : Handle) :
    ∀ (evs : List E) (s : StoreState A E IE) (a : A) (info : StoredValueInfo) (v : Nat),
      eventsOk ops h (ops.version a) evs = true →
      ops.version a ≤ v → v < ops.version a + evs.length →
      ∃ e, (applyLoop ops h s a info evs).1.events h v = some (Sum.inr e) ∧
        ops.evHandle e = h ∧ ops.evVersion e = v := by
  intro evs
  induction evs with
  | nil =>
    intro s a info v _ hlo hhi
    simp only [List.length_nil, Nat.add_zero] at hhi
    exact absurd hlo (Nat.not_le_of_lt hhi)
  | cons e rest ih =>
    intro s a info v hok hlo hhi
    obtain ⟨hev, heh, hrest⟩ := eventsOk_cons ops hok
    have hrest' : eventsOk ops h (ops.version (ops.apply a e)) rest = true := by
      rw [laws.apply_version]; exact hrest
    by_cases hv : v = ops.version a
    · -- the head event occupies slot (h, version a); the tail leaves it alone
      have hout' : (h : Handle) ≠ h ∨ v < ops.version (ops.apply a e) ∨
          ops.version (ops.apply a e) + rest.length ≤ v := by
        rw [laws.apply_version]
        exact Or.inr (Or.inl (by omega))
      rw [applyLoop]
      by_cases hd : ops.version (ops.apply a e) % SNAPSHOT_FREQ = 0
      · simp only [hd, if_true]
        refine ⟨e, ?_, heh, by omega⟩
        rw [applyLoop_events_out ops laws h rest _ _ _ _ _ hrest' hout']
        simp [storeSnapshot, storeEvent, upd2, hev, heh, hv]
      · simp only [hd, if_false]
        refine ⟨e, ?_, heh, by omega⟩
        rw [applyLoop_events_out ops laws h rest _ _ _ _ _ hrest' hout']
        simp [storeEvent, upd2, hev, heh, hv]
    · -- the slot belongs to the tail
      have hlo' : ops.version (ops.apply a e) ≤ v := by
        rw [laws.apply_version]
        omega
      have hhi' : v < ops.version (ops.apply a e) + rest.length := by
        rw [laws.apply_version]
        simp only [List.length_cons] at hhi
        omega
      rw [applyLoop]
      by_cases hd : ops.version (ops.apply a e) % SNAPSHOT_FREQ = 0
      · simp only [hd, if_true]
        exact ih _ _ _ _ hrest' hlo' hhi'
      · simp only [hd, if_false]
        exact ih _ _ _ _ hrest' hlo' hhi'

end ApplyLoopLemmas

section InvariantLemmas

variable {A E C IE DErr : Type} (ops : AggregateOps A E C IE DErr)

/-- The empty store satisfies the event contiguity invariant. -/
theorem eventInvariant_empty :
    EventInvariant ops (StoreState.empty : StoreState A E IE) := by
  refine ⟨?_, ?_, ?_, ?_⟩
  · intro h v x hx
    simp [StoreState.empty] at hx
  · intro h v ie hx
    simp [StoreState.empty] at hx
  · intro h _
    exact ⟨rfl, fun v e hx => by simp [StoreState.empty] at hx⟩
  · intro h i hi
    simp [StoreState.empty] at hi

/-- `add` preserves the event contiguity invariant. -/
theorem eventInvariant_add (laws : AggLaws ops) {s : StoreState A E IE} {ie : IE}
    (inv : EventInvariant ops s)
    (hfresh : s.infos (ops.ievHandle ie) = none)
    (hv0 : ops.ievVersion ie = 0) :
    EventInvariant ops (addFn ops s ie).1 := by
  obtain ⟨i1, i2, i3, i4⟩ := inv
  cases hinit : ops.init ie with
  | error err =>
    have hevents : ((addFn ops s ie).1).events
        = upd2 s.events (ops.ievHandle ie) (ops.ievVersion ie) (some (Sum.inl ie)) := by
      rw [addFn, hinit]
      rfl
    have hinfos : ((addFn ops s ie).1).infos = s.infos := by
      rw [addFn, hinit]
      rfl
    have hcache : ((addFn ops s ie).1).cache = s.cache := by
      rw [addFn, hinit]
      rfl
    refine ⟨?_, ?_, ?_, ?_⟩
    · intro h v x hx
      rw [hevents] at hx
      simp only [upd2] at hx
      split_ifs at hx with hc
      · cases hx
        simp [eventRecHandle, hc.1]
      · exact i1 _ _ _ hx
    · intro h v ie2 hx
      rw [hevents] at hx
      simp only [upd2] at hx
      split_ifs at hx with hc
      · rw [hc.2, hv0]
      · exact i2 _ _ _ hx
    · intro h hn
      rw [hinfos] at hn
      rw [hcache, hevents]
      refine ⟨(i3 h hn).1, ?_⟩
      intro v e hx
      simp only [upd2] at hx
      split_ifs at hx with hc
      · cases hx
      · exact (i3 h hn).2 v e hx
    · intro h i hi
      rw [hinfos] at hi
      rw [hcache, hevents]
      have hne : h ≠ ops.ievHandle ie := by
        intro hEq
        rw [hEq, hfresh] at hi
        cases hi
      obtain ⟨ha, hiff⟩ := i4 h i hi
      refine ⟨ha, ?_⟩
      intro v
      have hev : upd2 s.events (ops.ievHandle ie) (ops.ievVersion ie)
          (some (Sum.inl ie)) h v = s.events h v := by
        simp [upd2, hne]
      rw [hev]
      exact hiff v
  | ok a =>
    have hver1 : ops.version a = 1 := laws.init_version ie a hinit
    have hevents : ((addFn ops s ie).1).events
        = upd2 s.events (ops.ievHandle ie) (ops.ievVersion ie) (some (Sum.inl ie)) := by
      rw [addFn, hinit]
      rfl
    have hinfos : ((addFn ops s ie).1).infos
        = upd1 s.infos (ops.ievHandle ie) (some {}) := by
      rw [addFn, hinit]
      rfl
    have hcache : ((addFn ops s ie).1).cache
        = upd1 s.cache (ops.ievHandle ie) (some a) := by
      rw [addFn, hinit]
      rfl
    refine ⟨?_, ?_, ?_, ?_⟩
    · intro h v x hx
      rw [hevents] at hx
      simp only [upd2] at hx
      split_ifs at hx with hc
      · cases hx
        simp [eventRecHandle, hc.1]
      · exact i1 _ _ _ hx
    · intro h v ie2 hx
      rw [hevents] at hx
      simp only [upd2] at hx
      split_ifs at hx with hc
      · rw [hc.2, hv0]
      · exact i2 _ _ _ hx
    · intro h hn
      rw [hinfos] at hn
      rw [hcache, hevents]
      simp only [upd1] at hn
      by_cases hc : h = ops.ievHandle ie
      · rw [if_pos hc] at hn
        cases hn
      · rw [if_neg hc] at hn
        refine ⟨?_, ?_⟩
        · simp only [upd1]
          rw [if_neg hc]
          exact (i3 h hn).1
        · intro v e hx
          simp only [upd2] at hx
          split_ifs at hx with hc2
          · exact absurd hc2.1 hc
          · exact (i3 h hn).2 v e hx
    · intro h i hi
      rw [hinfos] at hi
      rw [hcache, hevents]
      simp only [upd1] at hi
      by_cases hc : h = ops.ievHandle ie
      · rw [if_pos hc] at hi
        cases hi
        constructor
        · refine ⟨a, ?_, ?_⟩
          · simp [upd1, hc]
          · rw [hver1]
        · intro v
          constructor
          · rintro ⟨e, hx⟩
            simp only [upd2] at hx
            split_ifs at hx with hc2
            · cases hx
            · exact absurd hx ((i3 _ (hc ▸ hfresh)).2 v e)
          · rintro ⟨hv1, hv2⟩
            simp only at hv2
            omega
      · rw [if_neg hc] at hi
        obtain ⟨⟨a2, ha2, hva2⟩, hiff⟩ := i4 h i hi
        constructor
        · refine ⟨a2, ?_, hva2⟩
          simp [upd1, hc, ha2]
        · intro v
          have hev : upd2 s.events (ops.ievHandle ie) (ops.ievVersion ie)
              (some (Sum.inl ie)) h v = s.events h v := by
            simp [upd2, hc]
          rw [hev]
          exact hiff v

/-- The state built by the successful-command path - persist-and-apply
loop followed by the cache update and the info flush - satisfies the
event contiguity invariant again. -/
theorem eventInvariant_loopState (laws : AggLaws ops) {t : StoreState A E IE}
    (h₀ : Handle) {i : StoredValueInfo} {a : A} (e : E) (es : List E)
    (info2 : StoredValueInfo)
    (hinfo2le : info2.last_event = i.last_event + (e :: es).length)
    (inv : EventInvariant ops t)
    (hinfo : t.infos h₀ = some i)
    (hva : ops.version a = i.last_event + 1)
    (hok : eventsOk ops h₀ (ops.version a) (e :: es) = true) :
    EventInvariant ops
      (saveInfo { (applyLoop ops h₀ t a info2 (e :: es)).1 with
          cache := upd1 (applyLoop ops h₀ t a info2 (e :: es)).1.cache h₀
            (some (applyLoop ops h₀ t a info2 (e :: es)).2.1) } h₀
        (applyLoop ops h₀ t a info2 (e :: es)).2.2) := by
  obtain ⟨i1, i2, i3, i4⟩ := inv
  have hframe := applyLoop_frame ops h₀ (e :: es) t a info2
  have hcount := applyLoop_infoCounters ops h₀ (e :: es) t a info2
  have hvers := applyLoop_version ops laws h₀ (e :: es) t a info2
  have hle : (applyLoop ops h₀ t a info2 (e :: es)).2.2.last_event
      = i.last_event + (e :: es).length := hcount.1.trans hinfo2le
  refine ⟨?_, ?_, ?_, ?_⟩
  · intro h v x hx
    by_cases hcase : h = h₀ ∧ ops.version a ≤ v ∧ v < ops.version a + (e :: es).length
    · obtain ⟨ev, hev, hevh, hevv⟩ :=
        applyLoop_events_in ops laws h₀ (e :: es) t a info2 v hok hcase.2.1 hcase.2.2
      rw [hcase.1] at hx
      rw [show (saveInfo { (applyLoop ops h₀ t a info2 (e :: es)).1 with
          cache := upd1 (applyLoop ops h₀ t a info2 (e :: es)).1.cache h₀
            (some (applyLoop ops h₀ t a info2 (e :: es)).2.1) } h₀
          (applyLoop ops h₀ t a info2 (e :: es)).2.2).events
        = (applyLoop ops h₀ t a info2 (e :: es)).1.events from rfl] at hx
      rw [hev] at hx
      cases hx
      show ops.evHandle ev = h
      rw [hevh, hcase.1]
    · have hcond : h ≠ h₀ ∨ v < ops.version a ∨
          ops.version a + (e :: es).length ≤ v := by
        by_contra hcon
        push_neg at hcon
        exact hcase ⟨hcon.1, hcon.2.1, hcon.2.2⟩
      have hx' : t.events h v = some x := by
        rw [← applyLoop_events_out ops laws h₀ (e :: es) t a info2 h v hok hcond]
        exact hx
      exact i1 _ _ _ hx'
  · intro h v ie hx
    by_cases hcase : h = h₀ ∧ ops.version a ≤ v ∧ v < ops.version a + (e :: es).length
    · obtain ⟨ev, hev, _, _⟩ :=
        applyLoop_events_in ops laws h₀ (e :: es) t a info2 v hok hcase.2.1 hcase.2.2
      rw [hcase.1] at hx
      rw [show (saveInfo { (applyLoop ops h₀ t a info2 (e :: es)).1 with
          cache := upd1 (applyLoop ops h₀ t a info2 (e :: es)).1.cache h₀
            (some (applyLoop ops h₀ t a info2 (e :: es)).2.1) } h₀
          (applyLoop ops h₀ t a info2 (e :: es)).2.2).events
        = (applyLoop ops h₀ t a info2 (e :: es)).1.events from rfl] at hx
      rw [hev] at hx
      cases hx
    · have hcond : h ≠ h₀ ∨ v < ops.version a ∨
          ops.version a + (e :: es).length ≤ v := by
        by_contra hcon
        push_neg at hcon
        exact hcase ⟨hcon.1, hcon.2.1, hcon.2.2⟩
      have hx' : t.events h v = some (Sum.inl ie) := by
        rw [← applyLoop_events_out ops laws h₀ (e :: es) t a info2 h v hok hcond]
        exact hx
      exact i2 _ _ _ hx'
  · intro h hn
    have hc : h ≠ h₀ := by
      intro hEq
      rw [show (saveInfo { (applyLoop ops h₀ t a info2 (e :: es)).1 with
          cache := upd1 (applyLoop ops h₀ t a info2 (e :: es)).1.cache h₀
            (some (applyLoop ops h₀ t a info2 (e :: es)).2.1) } h₀
          (applyLoop ops h₀ t a info2 (e :: es)).2.2).infos
        = upd1 (applyLoop ops h₀ t a info2 (e :: es)).1.infos h₀
            (some (applyLoop ops h₀ t a info2 (e :: es)).2.2) from rfl] at hn
      rw [hEq] at hn
      simp [upd1] at hn
    have hn' : t.infos h = none := by
      rw [show (saveInfo { (applyLoop ops h₀ t a info2 (e :: es)).1 with
          cache := upd1 (applyLoop ops h₀ t a info2 (e :: es)).1.cache h₀
            (some (applyLoop ops h₀ t a info2 (e :: es)).2.1) } h₀
          (applyLoop ops h₀ t a info2 (e :: es)).2.2).infos
        = upd1 (applyLoop ops h₀ t a info2 (e :: es)).1.infos h₀
            (some (applyLoop ops h₀ t a info2 (e :: es)).2.2) from rfl] at hn
      rw [upd1, if_neg hc, hframe.2.1] at hn
      exact hn
    constructor
    · show upd1 (applyLoop ops h₀ t a info2 (e :: es)).1.cache h₀
        (some (applyLoop ops h₀ t a info2 (e :: es)).2.1) h = none
      rw [upd1, if_neg hc, hframe.2.2]
      exact (i3 h hn').1
    · intro v ev hx
      have hcond : h ≠ h₀ ∨ v < ops.version a ∨
          ops.version a + (e :: es).length ≤ v := Or.inl hc
      have hx' : t.events h v = some (Sum.inr ev) := by
        rw [← applyLoop_events_out ops laws h₀ (e :: es) t a info2 h v hok hcond]
        exact hx
      exact (i3 h hn').2 v ev hx'
  · intro h j hj
    rw [show (saveInfo { (applyLoop ops h₀ t a info2 (e :: es)).1 with
        cache := upd1 (applyLoop ops h₀ t a info2 (e :: es)).1.cache h₀
          (some (applyLoop ops h₀ t a info2 (e :: es)).2.1) } h₀
        (applyLoop ops h₀ t a info2 (e :: es)).2.2).infos
      = upd1 (applyLoop ops h₀ t a info2 (e :: es)).1.infos h₀
          (some (applyLoop ops h₀ t a info2 (e :: es)).2.2) from rfl] at hj
    by_cases hc : h = h₀
    · rw [upd1, if_pos hc] at hj
      cases hj
      constructor
      · refine ⟨(applyLoop ops h₀ t a info2 (e :: es)).2.1, ?_, ?_⟩
        · show upd1 (applyLoop ops h₀ t a info2 (e :: es)).1.cache h₀
            (some (applyLoop ops h₀ t a info2 (e :: es)).2.1) h
            = some (applyLoop ops h₀ t a info2 (e :: es)).2.1
          rw [upd1, if_pos hc]
        · rw [hvers, hva, hle]
          omega
      · intro v
        by_cases hw : ops.version a ≤ v ∧ v < ops.version a + (e :: es).length
        · constructor
          · intro _
            refine ⟨by omega, ?_⟩
            rw [hle]
            have := hw.2
            omega
          · intro _
            obtain ⟨ev, hev, _, _⟩ :=
              applyLoop_events_in ops laws h₀ (e :: es) t a info2 v hok hw.1 hw.2
            rw [hc]
            exact ⟨ev, hev⟩
        · have hcond : h₀ ≠ h₀ ∨ v < ops.version a ∨
              ops.version a + (e :: es).length ≤ v := by
            rcases Nat.lt_or_ge v (ops.version a) with h1 | h1
            · exact Or.inr (Or.inl h1)
            · refine Or.inr (Or.inr ?_)
              by_contra h2
              push_neg at h2
              exact hw ⟨h1, h2⟩
          have hdeltaT := (i4 h₀ i hinfo).2
          rw [hc]
          rw [show (saveInfo { (applyLoop ops h₀ t a info2 (e :: es)).1 with
              cache := upd1 (applyLoop ops h₀ t a info2 (e :: es)).1.cache h₀
                (some (applyLoop ops h₀ t a info2 (e :: es)).2.1) } h₀
              (applyLoop ops h₀ t a info2 (e :: es)).2.2).events
            = (applyLoop ops h₀ t a info2 (e :: es)).1.events from rfl]
          rw [applyLoop_events_out ops laws h₀ (e :: es) t a info2 h₀ v hok hcond]
          rw [hdeltaT v, hle]
          constructor <;> intro hcase <;> omega
    · rw [upd1, if_neg hc, hframe.2.1] at hj
      obtain ⟨⟨a2, ha2, hva2⟩, hiff⟩ := i4 h j hj
      constructor
      · refine ⟨a2, ?_, hva2⟩
        show upd1 (applyLoop ops h₀ t a info2 (e :: es)).1.cache h₀
          (some (applyLoop ops h₀ t a info2 (e :: es)).2.1) h = some a2
        rw [upd1, if_neg hc, hframe.2.2]
        exact ha2
      · intro v
        have hcond : h ≠ h₀ ∨ v < ops.version a ∨
            ops.version a + (e :: es).length ≤ v := Or.inl hc
        rw [show (saveInfo { (applyLoop ops h₀ t a info2 (e :: es)).1 with
            cache := upd1 (applyLoop ops h₀ t a info2 (e :: es)).1.cache h₀
              (some (applyLoop ops h₀ t a info2 (e :: es)).2.1) } h₀
            (applyLoop ops h₀ t a info2 (e :: es)).2.2).events
          = (applyLoop ops h₀ t a info2 (e :: es)).1.events from rfl]
        rw [applyLoop_events_out ops laws h₀ (e :: es) t a info2 h v hok hcond]
        exact hiff v

/-- `command` preserves the event contiguity invariant (every path:
missing info, version conflict, domain error, no-op, defensive check
failure, success). -/
theorem eventInvariant_command (laws : AggLaws ops) {s : StoreState A E IE}
    (inv : EventInvariant ops s) (cmd : C) (now : Nat) :
    EventInvariant ops (commandFn ops s cmd now).1 := by
  obtain ⟨i1, i2, i3, i4⟩ := inv
  cases hinfo : s.infos (ops.cmdHandle cmd) with
  | none =>
    rw [commandFn_noInfo_eq ops now hinfo]
    exact ⟨i1, i2, i3, i4⟩
  | some i =>
    obtain ⟨⟨a, hcache, hva⟩, hdelta⟩ := i4 _ _ hinfo
    have hnoev : getEvent s (ops.cmdHandle cmd) (ops.version a) = none := by
      rw [getEvent]
      cases hx : s.events (ops.cmdHandle cmd) (ops.version a) with
      | none => rfl
      | some x =>
        cases x with
        | inl ie => rfl
        | inr e =>
          have hin := (hdelta (ops.version a)).1 ⟨e, hx⟩
          exact absurd hin (by omega)
    by_cases hconf : ∀ v, ops.cmdVersion cmd = some v → v = ops.version a
    · cases hproc : ops.processCommand a cmd with
      | error e =>
        rw [commandFn_error_eq ops now hinfo hcache hnoev hconf hproc]
        refine ⟨fun h v x hx => i1 _ _ _ hx, fun h v ie hx => i2 _ _ _ hx, ?_, ?_⟩
        · intro h hn
          rw [show (saveInfo (storeCommand s
              { handle := ops.cmdHandle cmd, version := ops.version a
                sequence := i.last_command + 1
                effect := StoredEffectRec.error (ops.errMsg e) })
              (ops.cmdHandle cmd)
              { last_event := i.last_event, last_command := i.last_command + 1
                snapshot_version := i.snapshot_version, last_update := now }).infos
            = upd1 s.infos (ops.cmdHandle cmd)
                (some { last_event := i.last_event, last_command := i.last_command + 1
                        snapshot_version := i.snapshot_version, last_update := now })
            from rfl] at hn
          by_cases hc : h = ops.cmdHandle cmd
          · rw [upd1, if_pos hc] at hn
            cases hn
          · rw [upd1, if_neg hc] at hn
            exact ⟨(i3 h hn).1, (i3 h hn).2⟩
        · intro h j hj
          rw [show (saveInfo (storeCommand s
              { handle := ops.cmdHandle cmd, version := ops.version a
                sequence := i.last_command + 1
                effect := StoredEffectRec.error (ops.errMsg e) })
              (ops.cmdHandle cmd)
              { last_event := i.last_event, last_command := i.last_command + 1
                snapshot_version := i.snapshot_version, last_update := now }).infos
            = upd1 s.infos (ops.cmdHandle cmd)
                (some { last_event := i.last_event, last_command := i.last_command + 1
                        snapshot_version := i.snapshot_version, last_update := now })
            from rfl] at hj
          by_cases hc : h = ops.cmdHandle cmd
          · rw [upd1, if_pos hc] at hj
            cases hj
            refine ⟨⟨a, ?_, hva⟩, ?_⟩
            · rw [hc]
              exact hcache
            · intro v
              rw [hc]
              exact hdelta v
          · rw [upd1, if_neg hc] at hj
            exact i4 h j hj
      | ok events =>
        cases events with
        | nil =>
          rw [commandFn_noop_eq ops now hinfo hcache hnoev hconf hproc]
          exact ⟨i1, i2, i3, i4⟩
        | cons e es =>
          by_cases hok : eventsOk ops (ops.cmdHandle cmd) (ops.version a) (e :: es) = true
          · rw [commandFn_success_eq ops now hinfo hcache hnoev hconf hproc hok]
            exact eventInvariant_loopState ops laws (ops.cmdHandle cmd) e es
              _ rfl ⟨i1, i2, i3, i4⟩ hinfo hva hok
          · have hok' : eventsOk ops (ops.cmdHandle cmd) (ops.version a) (e :: es)
                = false := by
              revert hok
              cases eventsOk ops (ops.cmdHandle cmd) (ops.version a) (e :: es) <;> simp
            rw [commandFn_badEvents_eq ops now hinfo hcache hnoev hconf hproc hok']
            exact ⟨i1, i2, i3, i4⟩
    · push_neg at hconf
      obtain ⟨v, hv, hne⟩ := hconf
      rw [commandFn_conflict_eq ops now v hinfo hcache hnoev hv hne]
      exact ⟨i1, i2, i3, i4⟩

end InvariantLemmas

/-- C5: during successful command processing a snapshot is persisted
exactly when the aggregate's new version after an applied event is
divisible by `SNAPSHOT_FREQ = 5` - rotating the previous snapshot to the
backup snapshot - and `info.snapshot_version` is set to that version
(agg_store.rs lines 400-407); concretely, for `alice` initialised at
version 1 and given 21 single-event `GoAroundTheSun` commands, snapshots
are written at versions 5, 10, 15 and 20 (after the initial snapshot at
version 1 written by `add`), the final snapshot/backup pair is the
aggregate at versions 20 and 15, and `info.snapshot_version = 20`. -/
theorem claim_C5 :
    (∀ (A E C IE DErr : Type) (ops : AggregateOps A E C IE DErr)
       (h : Handle) (evs : List E) (s : StoreState A E IE)
       (a : A) (info : StoredValueInfo),
      (applyLoop ops h s a info evs).1.snapLog =
        (((interVersions ops a evs).filter
            (fun v => decide (v % SNAPSHOT_FREQ = 0))).reverse.map
          (fun v => (h, v))) ++ s.snapLog ∧
      (applyLoop ops h s a info evs).2.2.snapshot_version =
        ((interVersions ops a evs).filter
            (fun v => decide (v % SNAPSHOT_FREQ = 0))).foldl
          (fun _ v => v) info.snapshot_version) ∧
    (∀ (A E C IE DErr : Type) (ops : AggregateOps A E C IE DErr)
       (s : StoreState A E IE) (h : Handle) (a : A),
      (storeSnapshot ops s h a).backupSnapshot h = s.snapshot h ∧
      (storeSnapshot ops s h a).snapshot h = some a ∧
      (storeSnapshot ops s h a).snapLog = (h, ops.version a) :: s.snapLog) ∧
    (aliceAfter21.snapLog =
      [("alice", 20), ("alice", 15), ("alice", 10), ("alice", 5), ("alice", 1)] ∧
     aliceAfter21.snapshot "alice"
       = some { id := "alice", version := 20, name := "alice smith", age := 19 } ∧
     aliceAfter21.backupSnapshot "alice"
       = some { id := "alice", version := 15, name := "alice smith", age := 14 } ∧
     aliceAfter21.infos "alice"
       = some { last_event := 21, last_command := 21, snapshot_version := 20
                last_update := 1000 } ∧
     aliceAfter21.cache "alice"
       = some { id := "alice", version := 22, name := "alice smith", age := 21 }) := by
  refine ⟨?_, ?_, by decide, by decide, by decide, by decide, by decide⟩
  · intro A E C IE DErr ops h evs s a info
    exact ⟨applyLoop_snapLog ops h evs s a info, applyLoop_snapshotVersion ops h evs s a info⟩
  · intro A E C IE DErr ops s h a
    exact ⟨by simp [storeSnapshot, upd1], by simp [storeSnapshot, upd1], rfl⟩

/-- C4: (1) event contiguity is an invariant of every store state
reachable through `add` and `command` for any aggregate satisfying the
contract: per aggregate, the stored delta-event versions are exactly the
gap-free set `{1, …, last_event}` and every stored event record carries
the handle of its aggregate; (2) `command` preserves it by checking -
before persisting anything - that the returned events carry versions
`latest.version + i` and the aggregate's handle, and failing
`WrongEventForAggregate` with the state returned untouched (neither the
command record nor any event written) when the check fails
(agg_store.rs lines 377-387). -/
theorem claim_C4 :
    (∀ (A E C IE DErr : Type) (ops : AggregateOps A E C IE DErr), AggLaws ops →
      ∀ s : StoreState A E IE, Reachable ops s → EventInvariant ops s) ∧
    (∀ (A E C IE DErr : Type) (ops : AggregateOps A E C IE DErr)
       (s : StoreState A E IE) (cmd : C) (now : Nat) (info0 : StoredValueInfo)
       (latest : A) (events : List E),
      s.infos (ops.cmdHandle cmd) = some info0 →
      s.cache (ops.cmdHandle cmd) = some latest →
      getEvent s (ops.cmdHandle cmd) (ops.version latest) = none →
      (∀ v, ops.cmdVersion cmd = some v → v = ops.version latest) →
      ops.processCommand latest cmd = Except.ok events →
      events ≠ [] →
      eventsOk ops (ops.cmdHandle cmd) (ops.version latest) events = false →
      commandFn ops s cmd now =
        (s, Except.error (AggErr.store AggregateStoreError.wrongEventForAggregate))) := by
  constructor
  · intro A E C IE DErr ops laws s hr
    induction hr with
    | empty => exact eventInvariant_empty ops
    | add hr hfresh hv0 ih => exact eventInvariant_add ops laws ih hfresh hv0
    | cmd hr ih => exact eventInvariant_command ops laws ih _ _
  · intro A E C IE DErr ops s cmd now info0 latest events hinfo hcache hnoev hver hproc hne hok
    cases events with
    | nil => exact absurd rfl hne
    | cons e es => exact commandFn_badEvents_eq ops now hinfo hcache hnoev hver hproc hok

/-- Witness for C4: the freshly added `alice` store is reachable and
satisfies the invariant; and the lying `Unit` aggregate's bad event
(version 999 instead of 1) makes `command` fail `WrongEventForAggregate`
with the store untouched. -/
theorem claim_C4_witness :
    EventInvariant personOps aliceAddedState ∧
    commandFn liarOps unitState () 1000 =
      (unitState, Except.error (AggErr.store AggregateStoreError.wrongEventForAggregate)) :=
  ⟨claim_C4.1 Person PersonEvent PersonCommand InitPersonEvent PersonError
      personOps personLaws aliceAddedState
      (Reachable.add Reachable.empty rfl rfl),
   claim_C4.2 Unit Unit Unit Unit Unit liarOps unitState () 1000 {} () [()]
      (by decide) (by decide) (by decide) (by intro v hv; cases hv) (by rfl)
      (by simp) (by rfl)⟩

end Krill
